import Mathlib

/-!
Shallow embedding of the HTTP message parser, redaction pass and transaction
correlation of protos/http/http.go (packetbeat fork).  Byte buffers are
modelled as lists of characters (all relevant content is ASCII); the Go `int`
fields that the claims exercise are modelled as Nat (every reachable value in
the claims is non-negative); the uint16 status-code cast keeps its explicit
mod 2^16.  Go operations that can panic (out-of-range slicing, indexing) are
modelled with Option, and a dedicated `panicked` outcome survives to the
entry points.
-/

abbrev Bytes := List Char

/-- Go bytes.Index: index of the first occurrence of pat in s, none if absent.
An empty pattern matches at index 0, as in Go. -/
def bytesIndex (s pat : Bytes) : Option Nat :=
  if pat.isPrefixOf s then some 0
  else
    match s with
    | [] => none
    | _ :: rest => (bytesIndex rest pat).map (· + 1)

/-- Go bytes.IndexAny with a set of single-byte chars: first index of any of them. -/
def bytesIndexAny (s : Bytes) (chars : List Char) : Option Nat :=
  match s with
  | [] => none
  | c :: rest =>
    if chars.contains c then some 0
    else (bytesIndexAny rest chars).map (· + 1)

/-- Go bytes.LastIndex(s, c) for a one-byte separator: index of the last occurrence. -/
def lastIndexOfChar : Bytes → Char → Option Nat
  | [], _ => none
  | a :: rest, c =>
    match lastIndexOfChar rest c with
    | some i => some (i + 1)
    | none => if a = c then some 0 else none

/-- Go slice s[a:b]. none models the bounds panic (a > b or b > len). -/
def goSlice (s : Bytes) (a b : Nat) : Option Bytes :=
  if a ≤ b ∧ b ≤ s.length then some ((s.take b).drop a) else none

/-- Go slice s[a:]. none models the bounds panic (a > len). -/
def goSliceFrom (s : Bytes) (a : Nat) : Option Bytes :=
  if a ≤ s.length then some (s.drop a) else none

/-- Whitespace recognized by bytes.Fields (ASCII cases of unicode.IsSpace). -/
def goIsSpace (c : Char) : Bool :=
  c = ' ' || c = '\t' || c = '\n' || c = '\x0b' || c = '\x0c' || c = '\r'

/-- Go bytes.Fields: whitespace-separated tokens. -/
def goFields (s : Bytes) : List Bytes :=
  (s.splitOnP goIsSpace).filter (fun l => !l.isEmpty)

/-- Go strings.Split with a one-byte separator (keeps empty components). -/
def goSplitChar (sep : Char) : Bytes → List Bytes
  | [] => [[]]
  | c :: rest =>
    if c = sep then [] :: goSplitChar sep rest
    else
      match goSplitChar sep rest with
      | [] => [[c]]
      | g :: gs => (c :: g) :: gs

/-- Go bytes.Trim / strings.Trim with a cutset of single bytes. -/
def trimChars (s : Bytes) (cutset : List Char) : Bytes :=
  ((s.dropWhile (fun c => cutset.contains c)).reverse.dropWhile
    (fun c => cutset.contains c)).reverse

/-- Lower-casing as strings.ToLower does on ASCII input. -/
def toLowerBytes (s : Bytes) : Bytes := s.map Char.toLower

/-- strings.Contains via bytesIndex. -/
def containsSubstr (s pat : Bytes) : Bool := (bytesIndex s pat).isSome

def digitVal (c : Char) : Nat := if c.isDigit then c.toNat - 48 else 0

/-- Go strconv.Atoi with the error discarded by every caller in the source:
digit strings (optionally with a leading plus) yield their value, anything
else yields 0.  Negative inputs never occur in the claims and are modelled
as the error case. -/
def atoiNat (s : Bytes) : Nat :=
  let t := match s with | '+' :: r => r | _ => s
  if t ≠ [] ∧ t.all Char.isDigit then t.foldl (fun a c => a * 10 + digitVal c) 0 else 0

def isHexDigitChar (c : Char) : Bool :=
  c.isDigit || ('a' ≤ c && c ≤ 'f') || ('A' ≤ c && c ≤ 'F')

def hexDigitVal (c : Char) : Nat :=
  if c.isDigit then c.toNat - 48
  else if 'a' ≤ c ∧ c ≤ 'f' then c.toNat - 87
  else if 'A' ≤ c ∧ c ≤ 'F' then c.toNat - 55
  else 0

/-- fmt.Sscanf(line, "%x", ...): skip leading blanks, read a non-empty run of
hex digits (trailing bytes such as chunk extensions are left unread), error
if no hex digit starts the run. -/
def sscanfHex (s : Bytes) : Option Nat :=
  let t := (s.dropWhile (fun c => c = ' ' || c = '\t')).takeWhile isHexDigitChar
  if t = [] then none else some (t.foldl (fun a c => a * 16 + hexDigitVal c) 0)

def crlf : Bytes := ['\r', '\n']

/-- Overwrite with stars every byte at an index i with a ≤ i < b, as the Go
loops `for i := start; i < end { msg[i] = byte('*') }` do (no-op when a ≥ b). -/
def setStars (msg : Bytes) (a b : Nat) : Bytes :=
  msg.enum.map (fun p => if a ≤ p.1 ∧ p.1 < b then '*' else p.2)

/-- Go map read m[k] on a string-valued map: missing keys give "". -/
def lookupHeader (hs : List (Bytes × Bytes)) (name : Bytes) : Bytes :=
  match hs.find? (fun p => p.1 == name) with
  | some p => p.2
  | none => []

/-- Go map read with the ok flag: `v, ok := m[k]`. -/
def lookupHeaderOk (hs : List (Bytes × Bytes)) (name : Bytes) : Option Bytes :=
  (hs.find? (fun p => p.1 == name)).map (·.2)

/-- Go map assignment m[k] = v (overwrite or append). -/
def setHeader (hs : List (Bytes × Bytes)) (name v : Bytes) : List (Bytes × Bytes) :=
  match hs with
  | [] => [(name, v)]
  | (n, w) :: rest => if n = name then (name, v) :: rest else (n, w) :: setHeader rest name v

/-- The duplicate-joining insert of Http.parseHeader: an existing name gets
", " and the new value appended, a new name is stored as is. -/
def insertHeaderJoin (hs : List (Bytes × Bytes)) (name v : Bytes) : List (Bytes × Bytes) :=
  match lookupHeaderOk hs name with
  | some old => setHeader hs name (old ++ (", ".toList) ++ v)
  | none => hs ++ [(name, v)]

/-- Parse states of the message parser (the FLINE constant exists in the
source but no switch case ever enters it). -/
inductive ParseState
  | START
  | FLINE
  | HEADERS
  | BODY
  | BODY_CHUNKED_START
  | BODY_CHUNKED
  | BODY_CHUNKED_WAIT_FINAL_CRLF
deriving Repr, DecidableEq

/-- HttpMessage of http.go.  Timing, tuple and process fields are not part of
any claim and are omitted; Raw is filled by handleHttp. -/
structure HttpMessage where
  hasContentLength : Bool := false
  headerOffset : Nat := 0
  bodyOffset : Nat := 0
  version_major : Nat := 0
  version_minor : Nat := 0
  connection : Bytes := []
  chunked_length : Nat := 0
  chunked_body : Bytes := []
  IsRequest : Bool := false
  FirstLine : Bytes := []
  RequestUri : Bytes := []
  Method : Bytes := []
  StatusCode : Nat := 0
  StatusPhrase : Bytes := []
  Real_ip : Bytes := []
  ContentLength : Nat := 0
  TransferEncoding : Bytes := []
  Headers : List (Bytes × Bytes) := []
  Raw : Bytes := []
  start : Nat := 0
  «end» : Nat := 0
deriving Repr, DecidableEq

/-- HttpStream of http.go (the tcptuple pointer is not modelled). -/
structure HttpStream where
  data : Bytes := []
  parseOffset : Nat := 0
  parseState : ParseState := .START
  bodyReceived : Nat := 0
  message : Option HttpMessage := none
deriving Repr, DecidableEq

/-- The configuration the source reads from the Http struct and from the
process-wide config.ConfigSingleton (Passwords and Include_body_for).
resultsNil models a nil results channel. -/
structure HttpConfig where
  Send_request : Bool := true
  Send_response : Bool := true
  Send_headers : Bool := false
  Send_all_headers : Bool := false
  Headers_whitelist : List Bytes := []
  Split_cookie : Bool := false
  Real_ip_header : Bytes := []
  Hide_keywords : List Bytes := []
  Strip_authorization : Bool := false
  Include_body_for : List Bytes := []
  resultsNil : Bool := false
deriving Repr, DecidableEq

/-- parseVersion: fails exactly when fewer than 3 bytes are given; otherwise
Atoi of the first and third byte with the Atoi errors discarded (a non-digit
byte therefore yields 0, not an error). -/
def parseVersion : Bytes → Option (Nat × Nat)
  | a :: _ :: c :: _ => some (digitVal a, digitVal c)
  | _ => none

/-- parseResponseStatus: the status code is Atoi of the bytes before the first
SP (cast to uint16), the phrase is everything after the last SP; no SP means
an error.  none models the error return checked by the caller. -/
def parseResponseStatus (s : Bytes) : Option (Nat × Bytes) :=
  match bytesIndex s (" ".toList) with
  | none => none
  | some p =>
    let status_code := atoiNat (s.take p) % 65536
    match lastIndexOfChar s ' ' with
    | none => none
    | some p2 => some (status_code, s.drop (p2 + 1))

/-- Result of processing one first line after the CRLF was located:
either a panic, a stream-fatal error, or the updated message together with
the version bytes still to be parsed. -/
inductive FLOut
  | panicked
  | invalid
  | cont (m : HttpMessage) (version : Bytes)
deriving Repr, DecidableEq

/-- The response branch of the START state: version bytes are fline[5:8],
then parseResponseStatus runs on fline[9:], whose slicing panics when the
line is shorter than 9 bytes. -/
def firstLineResponse (m : HttpMessage) (fline : Bytes) : FLOut :=
  let m := { m with IsRequest := false }
  let version := (fline.take 8).drop 5
  match goSliceFrom fline 9 with
  | none => .panicked
  | some rest =>
    match parseResponseStatus rest with
    | none => .invalid
    | some (code, phrase) =>
      .cont { m with StatusCode := code, StatusPhrase := phrase } version

/-- The request branch of the START state: exactly three whitespace-separated
tokens, the third sliced as slices[2][:5] (a panic when shorter than 5) and
compared with HTTP/. -/
def firstLineRequest (m : HttpMessage) (fline : Bytes) : FLOut :=
  let slices := goFields fline
  if slices.length ≠ 3 then .invalid
  else
    let m := { m with Method := slices.getD 0 [], RequestUri := slices.getD 1 [] }
    let tok2 := slices.getD 2 []
    match goSlice tok2 0 5 with
    | none => .panicked
    | some t5 =>
      if t5 = "HTTP/".toList then
        .cont { m with IsRequest := true, FirstLine := fline } (tok2.drop 5)
      else .invalid

/-- The commit part of Http.parseHeader once the terminating CRLF at index p
was chosen: lower-case the name, trim the value, store the sentinel headers,
then keep the header in the map under the selection policy. -/
def commitHeader (cfg : HttpConfig) (i p : Nat) (data : Bytes) (m : HttpMessage) :
    Bool × Bool × Nat × HttpMessage :=
  let headerName := toLowerBytes (data.take i)
  let headerVal := trimChars ((data.take p).drop (i + 1)) [' ', '\t']
  let m :=
    if headerName = "content-length".toList then
      { m with ContentLength := atoiNat headerVal, hasContentLength := true }
    else if headerName = "transfer-encoding".toList then
      { m with TransferEncoding := headerVal }
    else if headerName = "connection".toList then
      { m with connection := headerVal }
    else m
  let m :=
    if cfg.Real_ip_header.length > 0 ∧ headerName = cfg.Real_ip_header then
      { m with Real_ip := headerVal }
    else m
  if cfg.Send_headers then
    if ¬cfg.Send_all_headers ∧ ¬cfg.Headers_whitelist.contains headerName then
      (true, true, p + 2, m)
    else
      (true, true, p + 2, { m with Headers := insertHeaderJoin m.Headers headerName headerVal })
  else (true, true, p + 2, m)

/-- The folding loop of Http.parseHeader, verbatim: p walks to the next CRLF;
the source then tests data[p+1] (which is the LF of the CRLF just found)
against SP and HT, so the folding continuation is dead code and the header
value always ends at the first CRLF after the colon.  Fuel mirrors the
loop bound p < len(data); running out of fuel reproduces the loop falling
through, which returns (true, false, len(data)). -/
def parseHeaderLoop (cfg : HttpConfig) (i : Nat) (data : Bytes) (m : HttpMessage) :
    Nat → Nat → Bool × Bool × Nat × HttpMessage
  | _, 0 => (true, false, data.length, m)
  | p, fuel + 1 =>
    if p < data.length then
      match bytesIndex (data.drop p) crlf with
      | none => (true, false, 0, m)
      | some q =>
        let p := p + q
        if data.length > p ∧ (data.getD (p + 1) '\x00' = ' ' ∨ data.getD (p + 1) '\x00' = '\t') then
          parseHeaderLoop cfg i data m (p + 2) fuel
        else
          commitHeader cfg i p data m
    else (true, false, data.length, m)

/-- Http.parseHeader on the unconsumed buffer: (ok, complete, consumed, m).
A missing colon is treated as an incomplete header. -/
def parseHeader (cfg : HttpConfig) (m : HttpMessage) (data : Bytes) :
    Bool × Bool × Nat × HttpMessage :=
  match bytesIndex data (":".toList) with
  | none => (true, false, 0, m)
  | some i => parseHeaderLoop cfg i data m (i + 1) (data.length + 2)

/-- Outcome of one Http.messageParser call: (true,false) is advance,
(true,true) is complete, (false,false) is invalid; panicked models a Go
runtime panic inside the parser (caught by the deferred Recover in Parse). -/
inductive MPOut
  | advance
  | complete
  | invalid
  | panicked
deriving Repr, DecidableEq

/-- One iteration of the parser loop either exits the call or continues. -/
inductive StepRes
  | exit (out : MPOut) (s : HttpStream) (m : HttpMessage)
  | next (s : HttpStream) (m : HttpMessage)
deriving Repr, DecidableEq

/-- The body-framing decision taken right after the empty line that ends the
headers, in the order the source checks it: 1xx/204/304 responses terminate;
a Transfer-Encoding stored exactly as chunked (case-sensitive) enters the
chunked states; a zero Content-Length on a request or with an explicit
Content-Length header terminates; everything else reads a fixed or
connection-close framed body. -/
inductive EohDecision
  | terminate
  | chunked
  | emptyBody
  | fixedBody
deriving Repr, DecidableEq

def headersEohDecision (m : HttpMessage) : EohDecision :=
  if m.IsRequest = false ∧
      ((100 ≤ m.StatusCode ∧ m.StatusCode < 200) ∨ m.StatusCode = 204 ∨ m.StatusCode = 304) then
    .terminate
  else if m.TransferEncoding = "chunked".toList then .chunked
  else if m.ContentLength = 0 ∧ (m.IsRequest ∨ m.hasContentLength) then .emptyBody
  else .fixedBody

/-- The START case of messageParser.  Note two verbatim quirks of the source:
the CRLF index i is relative to parseOffset but is used absolutely both in
fline := s.data[s.parseOffset:i] and in s.parseOffset = i + 2 (harmless only
because the START state is entered with parseOffset = 0), and a version
parse error is non-fatal and defaults the version to 1.0. -/
def stepStart (s : HttpStream) (m : HttpMessage) : StepRes :=
  let m := { m with start := s.parseOffset }
  match bytesIndex (s.data.drop s.parseOffset) crlf with
  | none => .exit .advance s m
  | some i =>
    match goSlice s.data s.parseOffset i with
    | none => .exit .panicked s m
    | some fline =>
      if fline.length < 8 then .exit .invalid s m
      else
        let branch :=
          if fline.take 5 = "HTTP/".toList then firstLineResponse m fline
          else firstLineRequest m fline
        match branch with
        | .panicked => .exit .panicked s m
        | .invalid => .exit .invalid s m
        | .cont m version =>
          let m :=
            match parseVersion version with
            | none => { m with version_major := 1, version_minor := 0 }
            | some (vj, vn) => { m with version_major := vj, version_minor := vn }
          let s := { s with parseOffset := i + 2, parseState := .HEADERS }
          .next s { m with headerOffset := s.parseOffset }

/-- The HEADERS case: an empty line closes the headers and applies the
framing decision; otherwise one header field is parsed from the unconsumed
buffer. -/
def stepHeaders (cfg : HttpConfig) (s : HttpStream) (m : HttpMessage) : StepRes :=
  if 2 ≤ s.data.length - s.parseOffset ∧ (s.data.drop s.parseOffset).take 2 = crlf then
    let s := { s with parseOffset := s.parseOffset + 2 }
    let m := { m with bodyOffset := s.parseOffset }
    match headersEohDecision m with
    | .terminate => .exit .complete s { m with «end» := s.parseOffset }
    | .chunked => .next { s with parseState := .BODY_CHUNKED_START } m
    | .emptyBody => .exit .complete s { m with «end» := s.parseOffset }
    | .fixedBody => .next { s with parseState := .BODY } m
  else
    match parseHeader cfg m (s.data.drop s.parseOffset) with
    | (ok, hfcomplete, offset, m') =>
      if ¬ok then .exit .invalid s m'
      else if ¬hfcomplete then .exit .advance s m'
      else .next { s with parseOffset := s.parseOffset + offset } m'

/-- The BODY case: connection-close framing consumes everything and stays in
advance (completion happens on FIN); otherwise fixed Content-Length framing. -/
def stepBody (s : HttpStream) (m : HttpMessage) : StepRes :=
  let avail := s.data.length - s.parseOffset
  if ¬m.hasContentLength ∧
      (m.connection = "close".toList ∨
        (m.version_major = 1 ∧ m.version_minor = 0 ∧ m.connection ≠ "keep-alive".toList)) then
    .exit .advance
      { s with bodyReceived := s.bodyReceived + avail, parseOffset := s.data.length }
      { m with ContentLength := m.ContentLength + avail }
  else if avail ≥ m.ContentLength - s.bodyReceived then
    let s := { s with parseOffset := s.parseOffset + (m.ContentLength - s.bodyReceived) }
    .exit .complete s { m with «end» := s.parseOffset }
  else
    .exit .advance
      { s with bodyReceived := s.bodyReceived + avail, parseOffset := s.data.length } m

/-- state_body_chunked_start: read the hex chunk length from the next line;
a zero length looks for the final CRLF (or defers to the trailer state). -/
def state_body_chunked_start (s : HttpStream) (m : HttpMessage) :
    Bool × Bool × Bool × HttpStream × HttpMessage :=
  match bytesIndex (s.data.drop s.parseOffset) crlf with
  | none => (false, true, false, s, m)
  | some i =>
    let line := (s.data.drop s.parseOffset).take i
    match sscanfHex line with
    | none => (false, false, false, s, m)
    | some n =>
      let m := { m with chunked_length := n }
      let s := { s with parseOffset := s.parseOffset + i + 2 }
      if m.chunked_length = 0 then
        if (s.data.drop s.parseOffset).length < 2 then
          (false, true, false, { s with parseState := .BODY_CHUNKED_WAIT_FINAL_CRLF }, m)
        else if ¬(s.data.getD s.parseOffset '\x00' = '\r' ∧
            s.data.getD (s.parseOffset + 1) '\x00' = '\n') then
          (false, false, false, s, m)
        else
          let s := { s with parseOffset := s.parseOffset + 2 }
          (false, true, true, s, { m with «end» := s.parseOffset })
      else
        (true, true, false, { s with bodyReceived := 0, parseState := .BODY_CHUNKED }, m)

/-- state_body_chunked: with at least want+2 bytes available the whole
remaining chunk plus its CRLF is consumed; with at least want but fewer than
want+2 the call returns advance and consumes nothing (the CRLF must be
present before completing the chunk); with less than want everything
available is buffered. -/
def state_body_chunked (s : HttpStream) (m : HttpMessage) :
    Bool × Bool × Bool × HttpStream × HttpMessage :=
  if (s.data.drop s.parseOffset).length ≥ m.chunked_length - s.bodyReceived + 2 then
    (true, true, false,
      { s with parseOffset := s.parseOffset + (m.chunked_length - s.bodyReceived) + 2,
               parseState := .BODY_CHUNKED_START },
      { m with
          chunked_body := m.chunked_body ++
            (s.data.drop s.parseOffset).take (m.chunked_length - s.bodyReceived),
          ContentLength := m.ContentLength + m.chunked_length })
  else if (s.data.drop s.parseOffset).length ≥ m.chunked_length - s.bodyReceived then
    (false, true, false, s, m)
  else
    (false, true, false,
      { s with bodyReceived := s.bodyReceived + (s.data.drop s.parseOffset).length,
               parseOffset := s.data.length },
      { m with chunked_body := m.chunked_body ++ s.data.drop s.parseOffset })

/-- state_body_chunked_wait_final_crlf. -/
def state_body_chunked_wait_final_crlf (s : HttpStream) (m : HttpMessage) :
    Bool × Bool × HttpStream × HttpMessage :=
  if (s.data.drop s.parseOffset).length < 2 then (true, false, s, m)
  else if ¬(s.data.getD s.parseOffset '\x00' = '\r' ∧
      s.data.getD (s.parseOffset + 1) '\x00' = '\n') then
    (false, false, s, m)
  else
    let s := { s with parseOffset := s.parseOffset + 2 }
    (true, true, s, { m with «end» := s.parseOffset })

def outcomeOf (ok complete : Bool) : MPOut :=
  if ¬ok then .invalid else if complete then .complete else .advance

/-- One iteration of the messageParser switch. -/
def stepOnce (cfg : HttpConfig) (s : HttpStream) (m : HttpMessage) : StepRes :=
  match s.parseState with
  | .START => stepStart s m
  | .FLINE => .next s m
  | .HEADERS => stepHeaders cfg s m
  | .BODY => stepBody s m
  | .BODY_CHUNKED_START =>
    match state_body_chunked_start s m with
    | (cont, ok, complete, s', m') =>
      if cont then .next s' m' else .exit (outcomeOf ok complete) s' m'
  | .BODY_CHUNKED =>
    match state_body_chunked s m with
    | (cont, ok, complete, s', m') =>
      if cont then .next s' m' else .exit (outcomeOf ok complete) s' m'
  | .BODY_CHUNKED_WAIT_FINAL_CRLF =>
    match state_body_chunked_wait_final_crlf s m with
    | (ok, complete, s', m') => .exit (outcomeOf ok complete) s' m'

/-- The messageParser loop: runs while parseOffset < len(data).  Every
continuing iteration of the source consumes at least two bytes, so the
fuel len(data)+2 used by messageParser never runs out on reachable states;
fuel exhaustion returns advance. -/
def messageParserLoop (cfg : HttpConfig) : Nat → HttpStream → HttpMessage →
    MPOut × HttpStream × HttpMessage
  | 0, s, m => (.advance, s, m)
  | fuel + 1, s, m =>
    if s.parseOffset < s.data.length then
      match stepOnce cfg s m with
      | .exit out s' m' => (out, s', m')
      | .next s' m' => messageParserLoop cfg fuel s' m'
    else (.advance, s, m)

/-- Http.messageParser. -/
def messageParser (cfg : HttpConfig) (s : HttpStream) (m : HttpMessage) :
    MPOut × HttpStream × HttpMessage :=
  messageParserLoop cfg (s.data.length + 2) s m

/-- The length of the literal "Authorization:". -/
def authTextLen : Nat := ("Authorization:".toList).length

/-- The body-keyword pass of Http.censorPasswords, verbatim: the first
occurrence of the keyword in the body is used only when its index is
strictly positive; the delimiter search starts just past the keyword but the
source adds back only bodyOffset+index (without the keyword length), so
end_index lands len(keyword) bytes short of the delimiter. -/
def censorKeywords (m : HttpMessage) : Bytes → List Bytes → Bytes
  | msg, [] => msg
  | msg, keyword :: rest =>
    let msg :=
      match bytesIndex (msg.drop m.bodyOffset) keyword with
      | none => msg
      | some index =>
        if index > 0 then
          let start_index := m.bodyOffset + index + keyword.length
          let end_index :=
            match bytesIndexAny (msg.drop (m.bodyOffset + index + keyword.length))
                ['&', ' ', '\r', '\n'] with
            | some e =>
              if e > 0 then
                let x := e + m.bodyOffset + index
                if x > m.«end» then m.«end» else x
              else m.«end»
            | none => m.«end»
          if end_index - start_index < 120 then setStars msg start_index end_index else msg
        else msg
    censorKeywords m msg rest

/-- Http.censorPasswords on a request: the Authorization pass locates the
literal inside the header block and stars from the end of the literal up to
headerOffset plus the CRLF index relative to the start of the literal (the
source omits val_start_x in end_index), then unconditionally sets the
authorization header map entry to a single star; the body pass runs the
keyword redaction when the content length is positive and the content type
contains urlencoded. -/
def censorPasswords (cfg : HttpConfig) (m : HttpMessage) (msg : Bytes) :
    HttpMessage × Bytes :=
  if m.IsRequest then
    let (m, msg) :=
      if cfg.Strip_authorization ∧ lookupHeader m.Headers ("authorization".toList) ≠ [] then
        let header_len := m.bodyOffset - m.headerOffset
        let msg :=
          match bytesIndex ((msg.take m.bodyOffset).drop m.headerOffset)
              ("Authorization:".toList) with
          | none => msg
          | some val_start_x =>
            let val_end_x :=
              match bytesIndex ((msg.take m.bodyOffset).drop (m.headerOffset + val_start_x))
                  crlf with
              | none => header_len
              | some v => if v > header_len then header_len else v
            let start_index := m.headerOffset + val_start_x + authTextLen
            let end_index := m.headerOffset + val_end_x
            setStars msg start_index end_index
        ({ m with Headers := setHeader m.Headers ("authorization".toList) ("*".toList) }, msg)
      else (m, msg)
    let msg :=
      if 0 < m.ContentLength ∧
          containsSubstr (lookupHeader m.Headers ("content-type".toList))
            ("urlencoded".toList) then
        censorKeywords m msg cfg.Hide_keywords
      else msg
    (m, msg)
  else (m, msg)

/-- Modelled from the spec: the per-direction buffer cap lives in
protos/tcp, which is not part of the sources; the spec suggests 10 MiB. -/
def TCP_MAX_DATA_IN_STREAM : Nat := 10 * 1024 * 1024

/-- One completed message as handed by Parse to censorPasswords and
handleHttp (the raw slice is the censored bytes from start to end). -/
structure Emission where
  message : HttpMessage
  raw : Bytes
deriving Repr, DecidableEq

/-- Http.Parse after messageParser returned: on invalid (and on a recovered
panic, where the deferred Recover makes Parse return a nil private state)
the stream is dropped; on complete the raw slice is censored, the message
shipped, and PrepareForNewMessage shifts the buffer to start at end; on
advance the stream is kept as is. -/
def parseDrive (cfg : HttpConfig) (stream : HttpStream) :
    Option HttpStream × List Emission :=
  match messageParser cfg stream (stream.message.getD {}) with
  | (.panicked, _, _) => (none, [])
  | (.invalid, _, _) => (none, [])
  | (.complete, s', m') =>
    let raw := (s'.data.take m'.«end»).drop m'.start
    let (m'', raw') := censorPasswords cfg m' raw
    let em : Emission := { message := { m'' with Raw := raw' }, raw := raw' }
    (some { data := s'.data.drop m''.«end», parseOffset := 0, parseState := .START,
            bodyReceived := 0, message := none }, [em])
  | (.advance, s', m') => (some { s' with message := some m' }, [])

/-- Http.Parse for one direction of a flow: the first segment creates the
stream, later segments are appended (dropping the stream when the cap is
exceeded); parsing emits at most the one message messageParser completed. -/
def Parse (cfg : HttpConfig) (payload : Bytes) (priv : Option HttpStream) :
    Option HttpStream × List Emission :=
  match priv with
  | none => parseDrive cfg { data := payload, message := some {} }
  | some st =>
    let st := { st with data := st.data ++ payload }
    if st.data.length > TCP_MAX_DATA_IN_STREAM then (none, [])
    else
      let st := match st.message with
        | none => { st with message := some ({} : HttpMessage) }
        | some _ => st
      parseDrive cfg st

/-- Deliver segments in order on one direction and collect every emission. -/
def feedSegments (cfg : HttpConfig) (segs : List Bytes) : List Emission :=
  (segs.foldl (fun acc seg =>
      let r := Parse cfg seg acc.1
      (r.1, acc.2 ++ r.2))
    ((none : Option HttpStream), ([] : List Emission))).2

/-- splitCookiesHeader loop over the semicolon-separated components: each
component is split on the equal signs, and cookie[1] is read without a
bounds check, so a component without an equal sign panics (modelled as
none). -/
def splitCookiesLoop : List Bytes → List (Bytes × Bytes) → Option (List (Bytes × Bytes))
  | [], cookies => some cookies
  | cval :: rest, cookies =>
    match goSplitChar '=' cval with
    | c0 :: c1 :: _ =>
      splitCookiesLoop rest (setHeader cookies (toLowerBytes (trimChars c0 [' '])) c1)
    | _ => none

/-- splitCookiesHeader of http.go. -/
def splitCookiesHeader (headerVal : Bytes) : Option (List (Bytes × Bytes)) :=
  splitCookiesLoop (goSplitChar ';' headerVal) []

/-- A header map value after the optional cookie splitting. -/
inductive HdrVal
  | plain (v : Bytes)
  | cookies (cs : List (Bytes × Bytes))
deriving Repr, DecidableEq

/-- Rewrite a header map, splitting the value of splitName into a cookie map;
none propagates the splitCookiesHeader panic. -/
def splitHeadersWith (splitName : Bytes) : List (Bytes × Bytes) →
    Option (List (Bytes × HdrVal))
  | [] => some []
  | (n, v) :: rest =>
    let hv := if n = splitName then (splitCookiesHeader v).map HdrVal.cookies
              else some (HdrVal.plain v)
    match hv, splitHeadersWith splitName rest with
    | some h, some r => some ((n, h) :: r)
    | _, _ => none

/-- The response_headers sub-record built by receivedHttpResponse: absent
when headers are not sent, otherwise the header map with set-cookie split
when configured.  The outer none propagates the cookie-splitting panic. -/
def respHeaders (cfg : HttpConfig) (m : HttpMessage) :
    Option (Option (List (Bytes × HdrVal))) :=
  if cfg.Send_headers then
    if ¬cfg.Split_cookie then
      some (some (m.Headers.map (fun p => (p.1, HdrVal.plain p.2))))
    else (splitHeadersWith ("set-cookie".toList) m.Headers).map some
  else some none

/-- The http sub-record of a transaction (common.MapStr; none models nil). -/
structure TransHttpData where
  code : Nat := 0
  phrase : Bytes := []
  content_length : Nat := 0
  request_headers : Option (List (Bytes × HdrVal)) := none
  response_headers : Option (List (Bytes × HdrVal)) := none
deriving Repr, DecidableEq

/-- HttpTransaction of http.go (timing and endpoints are outside the claims;
the flow tuple is abstracted to its hash key). -/
structure HttpTransactionT where
  tupleKey : Nat := 0
  ResponseTime : Nat := 0
  Method : Bytes := []
  RequestUri : Bytes := []
  Http : Option TransHttpData := none
  Request_raw : Bytes := []
  Response_raw : Bytes := []
  Real_ip : Bytes := []
deriving Repr, DecidableEq

/-- The transactions map keyed by the hashable tuple. -/
def transLookup (table : List (Nat × HttpTransactionT)) (key : Nat) :
    Option HttpTransactionT :=
  (table.find? (fun p => p.1 == key)).map (·.2)

def transDelete (table : List (Nat × HttpTransactionT)) (key : Nat) :
    List (Nat × HttpTransactionT) :=
  table.filter (fun p => !(p.1 == key))

/-- Http.shouldIncludeInBody. -/
def shouldIncludeInBody (cfg : HttpConfig) (contenttype : Bytes) : Bool :=
  cfg.Include_body_for.any (fun inc => containsSubstr contenttype inc)

/-- Http.cutMessageBody: headers always, the body only when a content-type
header exists and is empty or matched by include_body_for; a chunked body
replaces the raw body bytes. -/
def cutMessageBody (cfg : HttpConfig) (m : HttpMessage) : Bytes :=
  let raw_msg_cut := m.Raw.take m.bodyOffset
  match lookupHeaderOk m.Headers ("content-type".toList) with
  | none => raw_msg_cut
  | some contentType =>
    if contentType.length = 0 ∨ shouldIncludeInBody cfg contentType then
      if m.chunked_body.length > 0 then raw_msg_cut ++ m.chunked_body
      else raw_msg_cut ++ m.Raw.drop m.bodyOffset
    else raw_msg_cut

/-- The record PublishTransaction sends on the results channel. -/
structure PublishedEvent where
  status : Bytes := []
  responsetime : Nat := 0
  request_raw : Option Bytes := none
  response_raw : Option Bytes := none
  http : Option TransHttpData := none
  real_ip : Option Bytes := none
  method : Bytes := []
  path : Bytes := []
deriving Repr, DecidableEq

/-- Http.PublishTransaction: nothing is sent on a nil results channel;
status is OK below 400 and ERROR otherwise. -/
def publishTransaction (cfg : HttpConfig) (t : HttpTransactionT)
    (results : List PublishedEvent) : List PublishedEvent :=
  if cfg.resultsNil then results
  else
    let code := (t.Http.getD {}).code
    results ++ [{
      status := if code < 400 then "OK".toList else "ERROR".toList,
      responsetime := t.ResponseTime,
      request_raw := if cfg.Send_request then some t.Request_raw else none,
      response_raw := if cfg.Send_response then some t.Response_raw else none,
      http := t.Http,
      real_ip := if t.Real_ip.length > 0 then some t.Real_ip else none,
      method := t.Method,
      path := t.RequestUri }]

/-- Http.receivedHttpResponse: a missing pending entry, or one whose Http
sub-record is nil, is dropped with a warning (the table and the results
channel are untouched); otherwise the response fields are merged, the raw
response saved, the transaction published and the entry deleted.  The outer
none models the cookie-splitting panic. -/
def receivedHttpResponse (cfg : HttpConfig) (msg : HttpMessage) (key : Nat)
    (table : List (Nat × HttpTransactionT)) (results : List PublishedEvent) :
    Option (List (Nat × HttpTransactionT) × List PublishedEvent) :=
  match transLookup table key with
  | none => some (table, results)
  | some t =>
    match t.Http with
    | none => some (table, results)
    | some hdata =>
      match respHeaders cfg msg with
      | none => none
      | some rh =>
        let hdata := { hdata with
          phrase := msg.StatusPhrase,
          code := msg.StatusCode % 65536,
          content_length := msg.ContentLength,
          response_headers := match rh with
            | none => hdata.response_headers
            | some h => some h }
        let t := { t with Http := some hdata }
        let t :=
          if cfg.Send_response then { t with Response_raw := cutMessageBody cfg msg }
          else t
        let results := publishTransaction cfg t results
        some (transDelete table key, results)

/-! Concrete inputs used by the claim theorems and witnesses. -/

/-- The configuration after Http.InitDefaults with nothing overridden. -/
def cfgDefault : HttpConfig := {}

/-- A minimal complete request (empty body by the request framing rule). -/
def Rreq : Bytes := "GET /a HTTP/1.1\r\n\r\n".toList

def c2cfg : HttpConfig := { Hide_keywords := ["password=".toList] }

def c2msg : Bytes := "user=bob&password=secret&x=1".toList

def c2m : HttpMessage :=
  { «end» := 28, IsRequest := true, ContentLength := 28, bodyOffset := 0, headerOffset := 0,
    Headers := [("content-type".toList, "application/x-www-form-urlencoded".toList)] }

def c3cfg : HttpConfig := { Strip_authorization := true }

def c3msg : Bytes := "Host: a\r\nAuthorization: Basic xyz\r\n\r\n".toList

def c3m : HttpMessage :=
  { «end» := 37, IsRequest := true, headerOffset := 0, bodyOffset := 37,
    Headers := [("authorization".toList, "Basic xyz".toList)] }

def c4cfg : HttpConfig := { Send_headers := true, Send_all_headers := true }

/-- A header whose value is folded over two lines with a leading HT. -/
def c4data : Bytes := "a: b\r\n\tc\r\n\r\n".toList

def mC7 : HttpMessage := { chunked_length := 5 }

/-- Exactly the 5 missing chunk bytes buffered, but not the trailing CRLF. -/
def sC7a : HttpStream := { data := "hello".toList, parseState := .BODY_CHUNKED }

/-- The 5 missing chunk bytes plus the trailing CRLF. -/
def sC7b : HttpStream := { data := "hello\r\n".toList, parseState := .BODY_CHUNKED }

def mC8 : HttpMessage := { IsRequest := true, TransferEncoding := "chunked".toList }

/-- The message Parse completes on the single request Rreq. -/
def emRreq : Emission :=
  { message := { «end» := 19, headerOffset := 17, bodyOffset := 19,
                 version_major := 1, version_minor := 1, IsRequest := true,
                 FirstLine := "GET /a HTTP/1.1".toList, RequestUri := "/a".toList,
                 Method := "GET".toList, Raw := Rreq, start := 0 },
    raw := Rreq }

/-- The stream state after Rreq completed and the buffer was shifted. -/
def stAfterRreq : HttpStream :=
  { data := [], parseOffset := 0, parseState := .START, bodyReceived := 0, message := none }

/-! Theorems. -/

theorem goSplitChar_ne_nil (sep : Char) : ∀ l : Bytes, goSplitChar sep l ≠ []
  | [] => by simp [goSplitChar]
  | c :: rest => by
    by_cases h : c = sep
    · simp [goSplitChar, h]
    · rcases hs : goSplitChar sep rest with _ | ⟨g, gs⟩
      · exact absurd hs (goSplitChar_ne_nil sep rest)
      · simp [goSplitChar, h, hs]

theorem mem_iff_two_le_splitLen (sep : Char) :
    ∀ l : Bytes, sep ∈ l ↔ 2 ≤ (goSplitChar sep l).length
  | [] => by simp [goSplitChar]
  | c :: rest => by
    by_cases h : c = sep
    · subst h
      rcases hs : goSplitChar c rest with _ | ⟨g, gs⟩
      · exact absurd hs (goSplitChar_ne_nil c rest)
      · simp [goSplitChar, hs]
    · rcases hs : goSplitChar sep rest with _ | ⟨g, gs⟩
      · exact absurd hs (goSplitChar_ne_nil sep rest)
      · have ih := mem_iff_two_le_splitLen sep rest
        rw [hs] at ih
        simp only [goSplitChar, if_neg h, hs, List.mem_cons, List.length_cons] at ih ⊢
        constructor
        · rintro (h1 | h1)
          · exact absurd h1.symm h
          · simpa using ih.mp h1
        · intro h1
          exact Or.inr (ih.mpr (by simpa using h1))

theorem splitCookiesLoop_isSome :
    ∀ (parts : List Bytes) (acc : List (Bytes × Bytes)),
      (splitCookiesLoop parts acc).isSome ↔ ∀ c ∈ parts, '=' ∈ c
  | [], acc => by simp [splitCookiesLoop]
  | cval :: rest, acc => by
    have hs := mem_iff_two_le_splitLen '=' cval
    rcases hsp : goSplitChar '=' cval with _ | ⟨c0, _ | ⟨c1, cs⟩⟩
    · exact absurd hsp (goSplitChar_ne_nil '=' cval)
    · rw [hsp] at hs
      simp only [splitCookiesLoop, hsp]
      simp only [List.forall_mem_cons]
      constructor
      · intro h1
        simp at h1
      · intro h1
        have h2 := hs.mp h1.1
        simp at h2
    · rw [hsp] at hs
      have hcv : '=' ∈ cval := hs.mpr (by simp)
      have ih := splitCookiesLoop_isSome rest
        (setHeader acc (toLowerBytes (trimChars c0 [' '])) c1)
      simp only [splitCookiesLoop, hsp, ih, List.forall_mem_cons, hcv, true_and]

theorem bytesIndex_single_isSome (c : Char) :
    ∀ s : Bytes, (bytesIndex s [c]).isSome ↔ c ∈ s
  | [] => by simp [bytesIndex, List.isPrefixOf]
  | a :: rest => by
    have ih := bytesIndex_single_isSome c rest
    by_cases h : c = a
    · simp [bytesIndex, List.isPrefixOf, h]
    · simp [bytesIndex, List.isPrefixOf, h, ih]

theorem lastIndexOfChar_isSome (c : Char) :
    ∀ s : Bytes, (lastIndexOfChar s c).isSome ↔ c ∈ s
  | [] => by simp [lastIndexOfChar]
  | a :: rest => by
    have ih := lastIndexOfChar_isSome c rest
    rcases h : lastIndexOfChar rest c with _ | i
    · rw [h] at ih
      by_cases ha : a = c
      · simp [lastIndexOfChar, h, ha]
      · simp only [Option.isSome_none, Bool.false_eq_true, false_iff] at ih
        have hca : ¬c = a := fun hh => ha hh.symm
        simp [lastIndexOfChar, h, ha, ih, hca]
    · rw [h] at ih
      simp only [Option.isSome_some, true_iff] at ih
      simp [lastIndexOfChar, h, List.mem_cons, ih]

theorem parseResponseStatus_none_iff (s : Bytes) :
    parseResponseStatus s = none ↔ bytesIndex s (" ".toList) = none := by
  unfold parseResponseStatus
  rcases h : bytesIndex s (" ".toList) with _ | p
  · simp
  · have h1 : (bytesIndex s [' ']).isSome := by
      rw [show ([' '] : Bytes) = (" ".toList) from rfl, h]; rfl
    have hmem := (bytesIndex_single_isSome ' ' s).mp h1
    have h2 := (lastIndexOfChar_isSome ' ' s).mpr hmem
    rcases h3 : lastIndexOfChar s ' ' with _ | p2
    · rw [h3] at h2; simp at h2
    · simp [h3]

theorem parseDrive_emissions_le_one (cfg : HttpConfig) (st : HttpStream) :
    (parseDrive cfg st).2.length ≤ 1 := by
  unfold parseDrive
  rcases hm : messageParser cfg st (st.message.getD {}) with ⟨out, s', m'⟩
  cases out <;> simp

/-- Claim C1 (amended): every Http.Parse call emits at most one completed
message; a pipelined second message in the same segment stays buffered and
is only parsed on a later Parse call, so segmentation can change the
emitted sequence. -/
theorem C1_parse_emits_at_most_one (cfg : HttpConfig) (payload : Bytes)
    (priv : Option HttpStream) : (Parse cfg payload priv).2.length ≤ 1 := by
  unfold Parse
  cases priv with
  | none => exact parseDrive_emissions_le_one cfg _
  | some st =>
    dsimp only
    split
    · simp
    · exact parseDrive_emissions_le_one cfg _

theorem feedSegments_single (cfg : HttpConfig) (a : Bytes) :
    feedSegments cfg [a] = (Parse cfg a none).2 := by
  rcases h1 : Parse cfg a none with ⟨st1, es1⟩
  simp [feedSegments, h1]

theorem feedSegments_pair (cfg : HttpConfig) (a b : Bytes) :
    feedSegments cfg [a, b] =
      (Parse cfg a none).2 ++ (Parse cfg b (Parse cfg a none).1).2 := by
  rcases h1 : Parse cfg a none with ⟨st1, es1⟩
  rcases h2 : Parse cfg b st1 with ⟨st2, es2⟩
  simp [feedSegments, h1, h2]

theorem parse_Rreq_step : Parse cfgDefault Rreq none = (some stAfterRreq, [emRreq]) := by
  decide

/-- Claim C1 counterexample: the same bytes (two pipelined requests) fed as
one segment emit one message, fed as two segments they emit two, so the
emitted sequences differ and in particular the pipelined second message of
the single segment is not emitted within that Parse call. -/
theorem C1_counterexample :
    [Rreq ++ Rreq].flatten = [Rreq, Rreq].flatten ∧
    (feedSegments cfgDefault [Rreq ++ Rreq]).length = 1 ∧
    (feedSegments cfgDefault [Rreq, Rreq]).length = 2 := by
  refine ⟨by simp, ?_, ?_⟩
  · rw [feedSegments_single]
    decide
  · rw [feedSegments_pair, parse_Rreq_step]
    have h2 : (Parse cfgDefault Rreq (some stAfterRreq)).2.length = 1 := by decide
    simp [h2]

/-- Claim C2: on the S5 body user=bob&password=secret&x=1 with hide keyword
password= the source censors nothing: end_index misses the keyword length
(end_index = bodyOffset + index + delimiter offset), so the star loop runs
over an empty range and the secret stays in clear, contradicting the
claimed output with six stars. -/
theorem C2_keyword_value_not_starred :
    (censorPasswords c2cfg c2m c2msg).2 = c2msg ∧
    (censorPasswords c2cfg c2m c2msg).2 ≠ ("user=bob&password=******&x=1").toList := by
  decide

/-- Claim C3: with a Host header before the Authorization header the source
stars only one byte: end_index misses val_start_x, so it falls nine bytes
short of the CRLF and the Basic credentials remain readable; the header
map entry is still set to a single star. -/
theorem C3_auth_value_partially_starred :
    (censorPasswords c3cfg c3m c3msg).2 =
      ("Host: a\r\nAuthorization:*Basic xyz\r\n\r\n").toList ∧
    (censorPasswords c3cfg c3m c3msg).2 ≠
      ("Host: a\r\nAuthorization:**********\r\n\r\n").toList ∧
    lookupHeader (censorPasswords c3cfg c3m c3msg).1.Headers ("authorization".toList) =
      ("*").toList := by
  decide

/-- Claim C4: on a folded header (CRLF followed by HT) parseHeader commits at
the FIRST CRLF with value b and consumed offset 6: the source compares
data[p+1], which is the LF of the CRLF itself, against SP and HT, so the
folding branch is dead and the claimed continuation (value b CRLF HT c,
offset 10) never happens. -/
theorem C4_folding_branch_dead :
    parseHeader c4cfg {} c4data =
      (true, true, 6, { Headers := [("a".toList, "b".toList)] }) ∧
    (parseHeader c4cfg {} c4data).2.2.1 ≠ 10 := by
  decide

/-- Claim C5 (amended): parseVersion errors exactly on version slices shorter
than 3 bytes, and only then does the parser default the version to 1.0 and
continue (shown on GET / HTTP/1); a 3-byte slice with non-digit bytes
parses without error through the discarded Atoi errors. -/
theorem C5_version_default_only_on_error :
    (∀ v : Bytes, parseVersion v = none ↔ v.length < 3) ∧
    ((messageParser cfgDefault { data := ("GET / HTTP/1\r\n").toList } {}).2.2.version_major = 1 ∧
     (messageParser cfgDefault { data := ("GET / HTTP/1\r\n").toList } {}).2.2.version_minor = 0 ∧
     (messageParser cfgDefault { data := ("GET / HTTP/1\r\n").toList } {}).2.1.parseState =
       ParseState.HEADERS) := by
  refine ⟨fun v => ?_, by decide, by decide, by decide⟩
  match v with
  | [] => simp [parseVersion]
  | [a] => simp [parseVersion]
  | [a, b] => simp [parseVersion]
  | a :: b :: c :: rest =>
    simp only [parseVersion, List.length_cons]
    constructor
    · intro h; exact Option.noConfusion h
    · omega

/-- Claim C5 counterexample: the first line HTTP/x.y 200 OK has version bytes
x.y, which do not parse as digits, yet the resulting message carries
version 0.0, not the claimed default 1.0 (parseVersion returns no error
because the Atoi errors are discarded). -/
theorem C5_counterexample :
    (messageParser cfgDefault { data := ("HTTP/x.y 200 OK\r\n").toList } {}).2.2.version_major = 0 ∧
    (messageParser cfgDefault { data := ("HTTP/x.y 200 OK\r\n").toList } {}).2.2.version_minor = 0 ∧
    ¬((messageParser cfgDefault { data := ("HTTP/x.y 200 OK\r\n").toList } {}).2.2.version_major = 1 ∧
      (messageParser cfgDefault { data := ("HTTP/x.y 200 OK\r\n").toList } {}).2.2.version_minor = 0) := by
  decide

/-- Claim C6 (amended): for a first line of length at least 9 whose first five
bytes are HTTP/, the response branch never panics, and it returns invalid
exactly when the remainder after position 9 holds no SP; a line of exactly
8 bytes instead panics on the fline[9:] slice. -/
theorem C6_response_line_safe_from_nine (m : HttpMessage) (fline : Bytes)
    (h9 : 9 ≤ fline.length) (hpre : fline.take 5 = "HTTP/".toList) :
    firstLineResponse m fline ≠ FLOut.panicked ∧
    (firstLineResponse m fline = FLOut.invalid ↔
      bytesIndex (fline.drop 9) (" ".toList) = none) := by
  have hslice : goSliceFrom fline 9 = some (fline.drop 9) := by
    simp [goSliceFrom, h9]
  have hiff := parseResponseStatus_none_iff (fline.drop 9)
  rcases hp : parseResponseStatus (fline.drop 9) with _ | ⟨code, phrase⟩
  · have hb := hiff.mp hp
    simp only [firstLineResponse, hslice, hp]
    exact ⟨by simp, ⟨fun _ => hb, fun _ => trivial⟩⟩
  · have hne : bytesIndex (fline.drop 9) (" ".toList) ≠ none := by
      intro hbn
      rw [hiff.mpr hbn] at hp
      exact Option.noConfusion hp
    simp only [firstLineResponse, hslice, hp]
    refine ⟨by simp, ⟨fun hd => ?_, fun hb => ?_⟩⟩
    · exact absurd hd (by simp)
    · exact absurd hb hne

theorem C6_witness :
    firstLineResponse {} ("HTTP/1.1 200 OK".toList) ≠ FLOut.panicked ∧
    (firstLineResponse {} ("HTTP/1.1 200 OK".toList) = FLOut.invalid ↔
      bytesIndex (("HTTP/1.1 200 OK".toList).drop 9) (" ".toList) = none) :=
  C6_response_line_safe_from_nine {} ("HTTP/1.1 200 OK".toList) (by decide) (by decide)

/-- Claim C6 counterexample: the first line HTTP/1.1 is 8 bytes long and
starts with HTTP/, yet the response branch panics on the fline[9:] slice
instead of parsing or returning invalid; through messageParser the whole
Parse call ends in the recovered-panic outcome, not a graceful invalid. -/
theorem C6_counterexample :
    ("HTTP/1.1".toList).length = 8 ∧
    ("HTTP/1.1".toList).take 5 = "HTTP/".toList ∧
    firstLineResponse {} ("HTTP/1.1".toList) = FLOut.panicked ∧
    (messageParser cfgDefault { data := ("HTTP/1.1\r\n").toList } {}).1 = MPOut.panicked := by
  decide

/-- Claim C7: in the chunk-data state, with at least want = chunked_length -
body_received bytes but fewer than want + 2 available the parser returns
advance touching neither the stream nor the message; with at least want + 2
it appends exactly the remaining chunk bytes, skips the trailing CRLF, adds
chunked_length to the content length and returns to the chunk-length state.
The stated hypothesis keeps Nat subtraction on the regime the parser
reaches (body_received never exceeds chunked_length). -/
theorem C7_chunk_boundary (s : HttpStream) (m : HttpMessage)
    (hinv : s.bodyReceived ≤ m.chunked_length) :
    ((s.data.drop s.parseOffset).length ≥ m.chunked_length - s.bodyReceived →
      (s.data.drop s.parseOffset).length < m.chunked_length - s.bodyReceived + 2 →
      state_body_chunked s m = (false, true, false, s, m)) ∧
    ((s.data.drop s.parseOffset).length ≥ m.chunked_length - s.bodyReceived + 2 →
      state_body_chunked s m = (true, true, false,
        { s with parseOffset := s.parseOffset + (m.chunked_length - s.bodyReceived) + 2,
                 parseState := ParseState.BODY_CHUNKED_START },
        { m with
            chunked_body := m.chunked_body ++
              (s.data.drop s.parseOffset).take (m.chunked_length - s.bodyReceived),
            ContentLength := m.ContentLength + m.chunked_length })) := by
  constructor
  · intro h1 h2
    unfold state_body_chunked
    rw [if_neg (by omega), if_pos h1]
  · intro h2
    unfold state_body_chunked
    rw [if_pos h2]

theorem C7_witness :
    state_body_chunked sC7a mC7 = (false, true, false, sC7a, mC7) ∧
    state_body_chunked sC7b mC7 = (true, true, false,
      { sC7b with parseOffset := sC7b.parseOffset + (mC7.chunked_length - sC7b.bodyReceived) + 2,
                  parseState := ParseState.BODY_CHUNKED_START },
      { mC7 with
          chunked_body := mC7.chunked_body ++
            (sC7b.data.drop sC7b.parseOffset).take (mC7.chunked_length - sC7b.bodyReceived),
          ContentLength := mC7.ContentLength + mC7.chunked_length }) :=
  ⟨(C7_chunk_boundary sC7a mC7 (by decide)).1 (by decide) (by decide),
   (C7_chunk_boundary sC7b mC7 (by decide)).2 (by decide)⟩

/-- Claim C8: past the 1xx/204/304 early termination, chunked framing is
chosen exactly when the stored trimmed Transfer-Encoding equals chunked
byte for byte; any other value (Chunked included) falls through to the
Content-Length / connection-close decision. -/
theorem C8_chunked_case_sensitive (m : HttpMessage)
    (h : m.IsRequest = true ∨
      ¬((100 ≤ m.StatusCode ∧ m.StatusCode < 200) ∨ m.StatusCode = 204 ∨ m.StatusCode = 304)) :
    (headersEohDecision m = EohDecision.chunked ↔ m.TransferEncoding = "chunked".toList) ∧
    (m.TransferEncoding ≠ "chunked".toList →
      headersEohDecision m = EohDecision.emptyBody ∨
      headersEohDecision m = EohDecision.fixedBody) := by
  have hfirst : ¬(m.IsRequest = false ∧
      ((100 ≤ m.StatusCode ∧ m.StatusCode < 200) ∨ m.StatusCode = 204 ∨ m.StatusCode = 304)) := by
    rcases h with h | h
    · simp [h]
    · tauto
  unfold headersEohDecision
  rw [if_neg hfirst]
  split_ifs with h1 h2
  · exact ⟨by simp [h1], fun hn => absurd h1 hn⟩
  · refine ⟨⟨fun hd => ?_, fun hte => absurd hte h1⟩, fun _ => Or.inl rfl⟩
    simp at hd
  · refine ⟨⟨fun hd => ?_, fun hte => absurd hte h1⟩, fun _ => Or.inr rfl⟩
    simp at hd

theorem C8_witness :
    (headersEohDecision mC8 = EohDecision.chunked ↔
      mC8.TransferEncoding = "chunked".toList) ∧
    (mC8.TransferEncoding ≠ "chunked".toList →
      headersEohDecision mC8 = EohDecision.emptyBody ∨
      headersEohDecision mC8 = EohDecision.fixedBody) :=
  C8_chunked_case_sensitive mC8 (Or.inl rfl)

/-- Claim C9: a completed response whose flow key has no pending transaction,
or whose pending entry has a nil Http sub-record, is dropped: nothing is
published and the transaction table is unchanged. -/
theorem C9_orphan_response_dropped (cfg : HttpConfig) (msg : HttpMessage) (key : Nat)
    (table : List (Nat × HttpTransactionT)) (results : List PublishedEvent)
    (h : transLookup table key = none ∨
      ∃ t, transLookup table key = some t ∧ t.Http = none) :
    receivedHttpResponse cfg msg key table results = some (table, results) := by
  unfold receivedHttpResponse
  rcases h with h | ⟨t, ht, hh⟩
  · simp [h]
  · simp [ht, hh]

theorem C9_witness :
    receivedHttpResponse cfgDefault {} 0 [] [] = some ([], []) :=
  C9_orphan_response_dropped cfgDefault {} 0 [] [] (Or.inl rfl)

/-- Claim C10: splitCookiesHeader succeeds exactly when every semicolon
component of the value holds an equal sign; a component without one makes
the cookie[1] index panic (none), as on the values a and x=1; flag. -/
theorem C10_split_cookies_partial :
    (∀ v : Bytes, (splitCookiesHeader v).isSome ↔ ∀ c ∈ goSplitChar ';' v, '=' ∈ c) ∧
    splitCookiesHeader ("a".toList) = none ∧
    splitCookiesHeader ("x=1; flag".toList) = none := by
  refine ⟨fun v => ?_, by decide, by decide⟩
  unfold splitCookiesHeader
  exact splitCookiesLoop_isSome (goSplitChar ';' v) []
